import Mathlib

/-!
Shallow embedding of the `oscd-subscriber-lb-siemens` plugin
(`src/oscd-subscriber-lb-siemens.ts` and
`src/foundation/subscription/subscription.ts`).

The XML document is modelled as a finite ordered tree of elements; an
element is addressed by the path of child indices from the root of the
tree it lives in.  DOM primitives used by the source (`getAttribute`,
`hasAttribute`, `closest`, `nextElementSibling`, `getElementsByTagName`,
`querySelectorAll`, `compareDocumentPosition`) are defined on that tree.
JavaScript runtime errors (property access on `null`/`undefined`) are
modelled with `Except`.
-/

/-- An XML element: tag name, attribute list, child elements. -/
inductive XNode where
  | mk (tag : String) (attrs : List (String × String)) (children : List XNode)

/-- Tag name of an element. -/
def tagN : XNode → String
  | .mk t _ _ => t

/-- Attribute list of an element. -/
def attrsN : XNode → List (String × String)
  | .mk _ a _ => a

/-- Child list of an element. -/
def childrenN : XNode → List XNode
  | .mk _ _ cs => cs

/-- `getAttribute`: first binding of the attribute, if present. -/
def attrN (n : XNode) (s : String) : Option String :=
  match (attrsN n).find? (fun pr => pr.1 == s) with
  | some pr => some pr.2
  | none => none

/-- `hasAttribute`. -/
def hasAttrN (n : XNode) (s : String) : Bool :=
  (attrsN n).any (fun pr => pr.1 == s)

/-- Child at index `i`. -/
def childAt (n : XNode) (i : Nat) : Option XNode :=
  (childrenN n).get? i

/-- Node addressed by a path of child indices. -/
def subtreeAt : XNode → List Nat → Option XNode
  | n, [] => some n
  | n, i :: p =>
    match childAt n i with
    | some c => subtreeAt c p
    | none => none

/-- An element is a tree (the document, or a detached clone for
pre-event snapshots) together with the path addressing it. -/
structure ENode where
  root : XNode
  path : List Nat

mutual
/-- Decidable equality of elements (childwise). -/
def deqX : (a b : XNode) → Decidable (a = b)
  | .mk t1 a1 c1, .mk t2 a2 c2 =>
    match decEq t1 t2 with
    | isFalse h => isFalse (fun hc => h (by injection hc))
    | isTrue h1 =>
      match decEq a1 a2 with
      | isFalse h => isFalse (fun hc => h (by injection hc))
      | isTrue h2 =>
        match deqXList c1 c2 with
        | isFalse h => isFalse (fun hc => h (by injection hc))
        | isTrue h3 => isTrue (by rw [h1, h2, h3])

/-- Decidable equality of element lists. -/
def deqXList : (as_ bs : List XNode) → Decidable (as_ = bs)
  | [], [] => isTrue rfl
  | [], _ :: _ => isFalse (by simp)
  | _ :: _, [] => isFalse (by simp)
  | a :: as_, b :: bs =>
    match deqX a b with
    | isFalse h => isFalse (fun hc => h (by injection hc))
    | isTrue h1 =>
      match deqXList as_ bs with
      | isFalse h => isFalse (fun hc => h (by injection hc))
      | isTrue h2 => isTrue (by rw [h1, h2])
end

instance : DecidableEq XNode := deqX

instance : DecidableEq ENode :=
  fun a b =>
    decidable_of_iff (a.root = b.root ∧ a.path = b.path)
      (by cases a; cases b; simp)

/-- `getAttribute` on an element. -/
def attrOfE (e : ENode) (s : String) : Option String :=
  match subtreeAt e.root e.path with
  | some n => attrN n s
  | none => none

/-- `getAttribute` on the node of a tree at a path. -/
def attrAt (root : XNode) (p : List Nat) (s : String) : Option String :=
  match subtreeAt root p with
  | some n => attrN n s
  | none => none

/-- Tag of the node of a tree at a path. -/
def tagAt (root : XNode) (p : List Nat) : Option String :=
  match subtreeAt root p with
  | some n => some (tagN n)
  | none => none

/-- Helper for `closest`: the argument is the reversed path of the
element currently examined; on a non-match the search continues at the
parent (one more reversed-path element dropped). -/
def closestFrom (root : XNode) (tag : String) : List Nat → Option (List Nat)
  | [] => if tagN root == tag then some [] else none
  | j :: rest =>
    match subtreeAt root (j :: rest).reverse with
    | some n => if tagN n == tag then some (j :: rest).reverse else closestFrom root tag rest
    | none => closestFrom root tag rest

/-- `element.closest(tag)`: nearest self-or-ancestor with the tag. -/
def closestTag (root : XNode) (p : List Nat) (tag : String) : Option (List Nat) :=
  closestFrom root tag p.reverse

/-- `element.nextElementSibling` (as a path), when it exists. -/
def nextSibPath (root : XNode) (p : List Nat) : Option (List Nat) :=
  match p.getLast? with
  | none => none
  | some i =>
    let q := p.dropLast ++ [i + 1]
    match subtreeAt root q with
    | some _ => some q
    | none => none

/-- `getNextSiblings(element, n)` from the source: up to `n` following
siblings, stopping early when none is left. -/
def getNextSiblings (root : XNode) : List Nat → Nat → List (List Nat)
  | _, 0 => []
  | p, n + 1 =>
    match nextSibPath root p with
    | none => []
    | some q => q :: getNextSiblings root q n

mutual
/-- Paths (absolute, given that the node sits at `p`) of all strict
descendants carrying the tag, in document (pre-)order. -/
def elemsUnder (tag : String) : XNode → List Nat → List (List Nat)
  | .mk _ _ cs, p => elemsUnderList tag cs p 0

/-- Helper of `elemsUnder` over a child list starting at index `i`. -/
def elemsUnderList (tag : String) : List XNode → List Nat → Nat → List (List Nat)
  | [], _, _ => []
  | c :: rest, p, i =>
    (if tagN c == tag then [p ++ [i]] else []) ++
      elemsUnder tag c (p ++ [i]) ++ elemsUnderList tag rest p (i + 1)
end

/-- `document.getElementsByTagName`: all elements of the document with
the tag, the root element included, in document order. -/
def docElemsByTag (doc : XNode) (tag : String) : List (List Nat) :=
  (if tagN doc == tag then [([] : List Nat)] else []) ++ elemsUnder tag doc []

/-- `element.getElementsByTagName` / `querySelectorAll(tag)`: strict
descendants of the node at `p` with the tag, in document order. -/
def elemsByTagAt (root : XNode) (p : List Nat) (tag : String) : List (List Nat) :=
  match subtreeAt root p with
  | some n => elemsUnder tag n p
  | none => []

/-- `a` strictly before `b` in document (pre-)order; an ancestor comes
before its descendants. -/
def pathLtB : List Nat → List Nat → Bool
  | [], [] => false
  | [], _ :: _ => true
  | _ :: _, [] => false
  | a :: as_, b :: bs => a < b || (a == b && pathLtB as_ bs)

/-- `a` is a proper ancestor path of `b` (proper prefix). -/
def isAnc : List Nat → List Nat → Bool
  | [], [] => false
  | [], _ :: _ => true
  | _ :: _, [] => false
  | a :: as_, b :: bs => a == b && isAnc as_ bs

/-- `self.compareDocumentPosition(other)` for two elements of one tree:
0 same node, 10 = CONTAINS|PRECEDING (other is an ancestor), 20 =
CONTAINED_BY|FOLLOWING (other is a descendant), 2 = PRECEDING, 4 =
FOLLOWING. -/
def cdpCode (self other : List Nat) : Nat :=
  if self = other then 0
  else if isAnc other self then 10
  else if isAnc self other then 20
  else if pathLtB other self then 2
  else 4

/-- JavaScript `===` on `string | null` values. -/
def jsEq (a b : Option String) : Bool := a == b

/-- Numeric value of a non-empty digit list. -/
def digitsVal (ds : List Char) : Nat :=
  ds.foldl (fun acc c => acc * 10 + (c.toNat - 48)) 0

/-- JavaScript `parseInt(s, 10)`: optional leading whitespace and sign,
then a non-empty digit prefix; `none` models `NaN`. -/
def jsParseInt (s : String) : Option Int :=
  let cs := s.data.dropWhile (fun c => c == ' ' || c == '\t' || c == '\n' || c == '\r')
  let sign : Int := match cs.head? with | some '-' => -1 | _ => 1
  let rest := match cs.head? with
    | some '-' => cs.tail
    | some '+' => cs.tail
    | _ => cs
  let ds := rest.takeWhile Char.isDigit
  if ds.isEmpty then none else some (sign * (digitsVal ds : Int))

/-- JavaScript `<` on numbers that may be `NaN`: any comparison with
`NaN` is false. -/
def jsLt (a b : Option Int) : Bool :=
  match a, b with
  | some x, some y => decide (x < y)
  | _, _ => false

/-- Structural splitter on a separator character (JS `split` with a
one-character separator). -/
def splitOnC (sep : Char) : List Char → List (List Char)
  | [] => [[]]
  | c :: rest =>
    match splitOnC sep rest with
    | [] => [[]]
    | g :: gs => if c == sep then [] :: g :: gs else (c :: g) :: gs

/-- JS `s.split(sep)` for a one-character separator. -/
def jsSplit (s : String) (sep : Char) : List String :=
  (splitOnC sep s.data).map (fun g => String.mk g)

/-- Template-string rendering of `string | null` (JS renders `null`). -/
def showA (o : Option String) : String :=
  match o with
  | some s => s
  | none => "null"

/-!
`src/foundation/subscription/subscription.ts`
-/

/-- `isSubscribed` (subscription.ts lines 13-21) on a bare node. -/
def isSubscribedN (n : XNode) : Bool :=
  hasAttrN n "iedName" && hasAttrN n "ldInst" && hasAttrN n "lnClass" &&
    hasAttrN n "lnInst" && hasAttrN n "doName"

/-- `isSubscribed` on an element. -/
def isSubscribedE (e : ENode) : Bool :=
  match subtreeAt e.root e.path with
  | some n => isSubscribedN n
  | none => false

/-- A JavaScript runtime error (`TypeError` from a property access on
`null`/`undefined`). -/
inductive Err where
  | typeError (msg : String)
deriving DecidableEq

/-- `findFCDAs` (subscription.ts lines 23-52).  `doc` is the main
document (`extRef.ownerDocument`); the element itself may live in a
detached clone. -/
def findFCDAs (doc : XNode) (e : ENode) : List ENode :=
  if !(tagAt e.root e.path == some "ExtRef") || (closestTag e.root e.path "Private").isSome then
    []
  else
    match (docElemsByTag doc "IED").find?
        (fun ip => jsEq (attrAt doc ip "name") (attrOfE e "iedName") &&
          !(closestTag doc ip "Private").isSome) with
    | none => []
    | some ip =>
      (((elemsByTagAt doc ip "FCDA").filter
          (fun fp => !(closestTag doc fp "Private").isSome)).filter
        (fun fp =>
          ((attrAt doc fp "ldInst").getD "" == (attrOfE e "ldInst").getD "") &&
          ((attrAt doc fp "prefix").getD "" == (attrOfE e "prefix").getD "") &&
          ((attrAt doc fp "lnClass").getD "" == (attrOfE e "lnClass").getD "") &&
          ((attrAt doc fp "lnInst").getD "" == (attrOfE e "lnInst").getD "") &&
          ((attrAt doc fp "doName").getD "" == (attrOfE e "doName").getD "") &&
          ((attrAt doc fp "daName").getD "" == (attrOfE e "daName").getD ""))).map
        (fun fp => (⟨doc, fp⟩ : ENode))

/-- All control-block tags appearing in `serviceTypeControlBlockTags`. -/
def cbTagsAll : List String :=
  ["LogControl", "GSEControl", "SampledValueControl", "ReportControl"]

/-- `serviceTypeControlBlockTags[serviceType ?? 'NONE'] ?? []`. -/
def cbTagsFor (e : ENode) : List String :=
  match (attrOfE e "serviceType").getD "NONE" with
  | "GOOSE" => ["GSEControl"]
  | "SMV" => ["SampledValueControl"]
  | "Report" => ["ReportControl"]
  | "NONE" => ["LogControl", "GSEControl", "SampledValueControl", "ReportControl"]
  | _ => []

/-- Monadic filter over `Except`, propagating the first error (models a
JS `filter` whose predicate may throw). -/
def filterE (pred : α → Except Err Bool) : List α → Except Err (List α)
  | [] => .ok []
  | x :: xs => do
    let b ← pred x
    let r ← filterE pred xs
    .ok (if b then x :: r else r)

/-- Monadic map over `Except`, propagating the first error. -/
def mapE (f : α → Except Err β) : List α → Except Err (List β)
  | [] => .ok []
  | x :: xs => do
    let y ← f x
    let r ← mapE f xs
    .ok (y :: r)

/-- The filter predicate of `findControlBlock` (subscription.ts lines
124-145); throws when `srcCBName` is set and a candidate block has no
`LN0` ancestor, or that `LN0` has no `LDevice` ancestor. -/
def cbPred (doc : XNode) (e : ENode) (dsName : String) (cbp : List Nat) : Except Err Bool :=
  match attrOfE e "srcCBName" with
  | some s =>
    if s.isEmpty then .ok (jsEq (attrAt doc cbp "datSet") (some dsName))
    else
      match closestTag doc cbp "LN0" with
      | none => .error (.typeError "cb.closest LN0 is null")
      | some lnp =>
        match closestTag doc lnp "LDevice" with
        | none => .error (.typeError "ln.closest LDevice is null")
        | some ldp =>
          .ok (jsEq (some s) (attrAt doc cbp "name") &&
            jsEq (some ((attrOfE e "srcLNInst").getD "")) (attrAt doc lnp "inst") &&
            jsEq (some ((attrOfE e "srcLNClass").getD "LLN0")) (attrAt doc lnp "lnClass") &&
            jsEq (some ((attrOfE e "srcPrefix").getD "")) (some ((attrAt doc lnp "prefix").getD "")) &&
            jsEq ((attrOfE e "srcLDInst") <|> (attrOfE e "ldInst")) (attrAt doc ldp "inst"))
  | none => .ok (jsEq (attrAt doc cbp "datSet") (some dsName))

/-- Candidate control blocks contributed by one FCDA inside
`findControlBlock`; throws when `fcda.parentElement` or
`dataSet.parentElement` is dereferenced while `null`. -/
def fcbForFcda (doc : XNode) (e : ENode) (fp : List Nat) : Except Err (List (List Nat)) :=
  match fp with
  | [] => .error (.typeError "fcda.parentElement is null")
  | _ :: _ =>
    let dsPath := fp.dropLast
    let dsName := (attrAt doc dsPath "name").getD ""
    let cbTags := cbTagsFor e
    if dsPath.isEmpty then
      if cbTags.isEmpty then .ok [] else .error (.typeError "dataSet.parentElement is null")
    else
      let anyLNPath := dsPath.dropLast
      let cands := (cbTags.map (fun t => elemsByTagAt doc anyLNPath t)).flatten
      filterE (cbPred doc e dsName) cands

/-- `findControlBlock` (subscription.ts lines 112-149): first matching
control block in insertion order, or `none`. -/
def findControlBlock (doc : XNode) (e : ENode) : Except Err (Option (List Nat)) := do
  let fcdas := findFCDAs doc e
  let lists ← mapE (fun f => fcbForFcda doc e f.path) fcdas
  .ok lists.flatten.head?

/-!
`src/oscd-subscriber-lb-siemens.ts` — pure helpers
-/

/-- Last `.`-segment of `daName` equals `"q"`
(`b.getAttribute('daName')?.split('.').slice(-1)[0] === 'q'`). -/
def qLastSeg (b : ENode) : Bool :=
  match attrOfE b "daName" with
  | some d => (jsSplit d '.').getLast? == some "q"
  | none => false

/-- `isfcdaPairWithQuality` (lines 30-37). -/
def isfcdaPairWithQuality (a b : ENode) : Bool :=
  ["ldInst", "prefix", "lnClass", "lnInst", "doName", "daName"].all
    (fun s => jsEq (attrOfE a s) (attrOfE b s) || (s == "daName" && qLastSeg b))

/-- `extRefMatchSiemens` (lines 51-63): both `intAddr` present, equal
`/`-segments before the last one, and the last character of `b`'s last
segment is `'q'` (`bParts[bParts.length - 1].slice(-1) === 'q'`). -/
def extRefMatchSiemens (a b : ENode) : Bool :=
  match attrOfE a "intAddr", attrOfE b "intAddr" with
  | some sa, some sb =>
    let aParts := jsSplit sa '/'
    let bParts := jsSplit sb '/' 
    decide (aParts.dropLast = bParts.dropLast) &&
      (match bParts.getLast? with
       | some t => t.data.getLast? == some 'q'
       | none => false)
  | _, _ => false

/-- `parseInt(fcda.getAttribute('lnInst') || '', 10)`. -/
def instOf (e : ENode) : Option Int :=
  jsParseInt ((attrOfE e "lnInst").getD "")

/-- The per-element acceptance condition of the `svOrderedFCDAs` scan at
0-based position `i`: the running reference values are those of the
first element (the source never updates `inst`; its `daName` tracking is
dead state). -/
def svAccept (first c : ENode) (i : Nat) : Bool :=
  jsEq (attrOfE c "ldInst") (attrOfE first "ldInst") &&
  jsEq (attrOfE c "lnClass") (attrOfE first "lnClass") &&
  jsEq (attrOfE c "doName") (attrOfE first "doName") &&
  (attrOfE c "fc" == some "MX") &&
  !(jsLt (instOf c) (instOf first)) &&
  (i % 2 == 0 || attrOfE c "daName" == some "q")

/-- The counting loop of `svOrderedFCDAs`: count accepted elements up to
the first rejection. -/
def svCount (first : ENode) : List ENode → Nat → Nat
  | [], _ => 0
  | c :: rest, i => if svAccept first c i then svCount first rest (i + 1) + 1 else 0

/-- `[firstFcda, ...getNextSiblings(firstFcda, 7)]`. -/
def svList (f : ENode) : List ENode :=
  f :: (getNextSiblings f.root f.path 7).map (fun q => (⟨f.root, q⟩ : ENode))

/-- `svOrderedFCDAs` (lines 98-147). -/
def svOrderedFCDAs (f : ENode) : Nat :=
  svCount f (svList f) 0

/-- The loop body of `matchFCDAsToExtRefs` (lines 149-180); throws when
a candidate ExtRef has no `LN` ancestor, or when the guard passes and
`fcdas[idx]` is `undefined`. -/
def matchLoop (fcdas : List ENode) : List ENode → Nat → Except Err (List (ENode × ENode))
  | [], _ => .ok []
  | x :: xs, idx =>
    match closestTag x.root x.path "LN" with
    | none => .error (.typeError "extRef.closest LN is null")
    | some lnp =>
      let ia := attrOfE x "intAddr"
      let lnClassA := attrAt x.root lnp "lnClass"
      if ia.isSome && lnClassA.isSome then
        match fcdas.get? idx with
        | none => .error (.typeError "fcda is undefined")
        | some f => do
          let fia := showA (attrOfE f "doName") ++ ";" ++ showA (attrOfE f "lnClass") ++
            "/" ++ showA (attrOfE f "doName") ++ "/" ++ showA (attrOfE f "daName")
          let cond := (ia == some fia) && jsEq lnClassA (attrOfE f "lnClass") &&
            ((isSubscribedE x || idx == 0) == (isSubscribedE x || idx == 0))
          let r ← matchLoop fcdas xs (idx + 1)
          .ok (if cond then (f, x) :: r else r)
      else do
        let r ← matchLoop fcdas xs (idx + 1)
        .ok r

/-- `matchFCDAsToExtRefs` (lines 149-180). -/
def matchFCDAsToExtRefs (fcdas extRefs : List ENode) : Except Err (List (ENode × ENode)) :=
  matchLoop fcdas extRefs 0

/-- The loop body of the simpler matcher of claim C10: identical to
`matchLoop` except that the always-true subscription-status consistency
conjunct is dropped. -/
def matchLoopSimple (fcdas : List ENode) : List ENode → Nat → Except Err (List (ENode × ENode))
  | [], _ => .ok []
  | x :: xs, idx =>
    match closestTag x.root x.path "LN" with
    | none => .error (.typeError "extRef.closest LN is null")
    | some lnp =>
      let ia := attrOfE x "intAddr"
      let lnClassA := attrAt x.root lnp "lnClass"
      if ia.isSome && lnClassA.isSome then
        match fcdas.get? idx with
        | none => .error (.typeError "fcda is undefined")
        | some f => do
          let fia := showA (attrOfE f "doName") ++ ";" ++ showA (attrOfE f "lnClass") ++
            "/" ++ showA (attrOfE f "doName") ++ "/" ++ showA (attrOfE f "daName")
          let cond := (ia == some fia) && jsEq lnClassA (attrOfE f "lnClass")
          let r ← matchLoopSimple fcdas xs (idx + 1)
          .ok (if cond then (f, x) :: r else r)
      else do
        let r ← matchLoopSimple fcdas xs (idx + 1)
        .ok r

/-- Modelled from the claim: `matchFCDAsToExtRefs` with only the
internal-address and enclosing-LN-class checks. -/
def matchFCDAsToExtRefsSimple (fcdas extRefs : List ENode) : Except Err (List (ENode × ENode)) :=
  matchLoopSimple fcdas extRefs 0

/-!
`src/oscd-subscriber-lb-siemens.ts` — the component
-/

/-- An edit the component re-dispatches: `subscribe` with sink FCDA and
control block, or `unsubscribe` with its `ignoreSupervision` option
(`none` when no options object is passed). -/
inductive Intent where
  | subscribe (sink fcda cb : List Nat)
  | unsubscribe (sink : List Nat) (ignoreSup : Option Bool)
deriving DecidableEq

/-- Sink element path of a dispatched edit. -/
def Intent.sink : Intent → List Nat
  | .subscribe s _ _ => s
  | .unsubscribe s _ => s

/-- Mutable component state read/written by the handlers. -/
structure PluginState where
  enabled : Bool
  preEventExtRef : List (Option ENode)
  ignoreSupervision : Bool

/-- `preEventExtRef && isSubscribed(preEventExtRef)` as a boolean. -/
def wasSub (pre : Option ENode) : Bool :=
  match pre with
  | some p => isSubscribedE p
  | none => false

/-- `modifyValueAndQualityPair` (lines 266-299): the list of dispatched
edits, or the JS error that aborts it. -/
def modifyValueAndQualityPair (doc : XNode) (st : PluginState) (e : ENode)
    (pre : Option ENode) (f : ENode) : Except Err (List Intent) := do
  let cb ← findControlBlock doc e
  match nextSibPath f.root f.path, nextSibPath e.root e.path with
  | some nf, some ne =>
    let nextF : ENode := ⟨f.root, nf⟩
    let nextE : ENode := ⟨e.root, ne⟩
    let was := wasSub pre
    if extRefMatchSiemens e nextE && isfcdaPairWithQuality f nextF then
      .ok ((if !was && isSubscribedE e && cb.isSome then
              [Intent.subscribe ne nf (cb.getD [])] else []) ++
           (if was && !(isSubscribedE e) then [Intent.unsubscribe ne none] else []))
    else
      .ok []
  | _, _ => .ok []

/-- The dispatch step of the `matchFCDAsToExtRefs(...).forEach` loop in
`modifySampledValueExtRefs`. -/
def svEmit (st : PluginState) (e : ENode) (was : Bool) (cb : Option (List Nat))
    (pr : ENode × ENode) : List Intent :=
  (if !was && isSubscribedE e && cb.isSome then
     [Intent.subscribe pr.2.path pr.1.path (cb.getD [])] else []) ++
  (if was && !(isSubscribedE e) then
     [Intent.unsubscribe pr.2.path (some st.ignoreSupervision)] else [])

/-- `modifySampledValueExtRefs` (lines 311-360). -/
def modifySampledValueExtRefs (doc : XNode) (st : PluginState) (e : ENode)
    (pre : Option ENode) (f : ENode) : Except Err (List Intent) :=
  let n := svOrderedFCDAs f
  if n > 2 then do
    let cb ← findControlBlock doc e
    let was := wasSub pre
    match closestTag e.root e.path "LDevice" with
    | none => .error (.typeError "extRef.closest LDevice is null")
    | some ldp =>
      let svE := (((elemsByTagAt e.root ldp "ExtRef").filter
          (fun q => cdpCode e.path q != 2)).take n).map
        (fun q => (⟨e.root, q⟩ : ENode))
      let svF := f :: (getNextSiblings f.root f.path (n - 1)).map
        (fun q => (⟨f.root, q⟩ : ENode))
      let pairs ← matchFCDAsToExtRefs svF svE
      .ok ((pairs.map (svEmit st e was cb)).flatten
      )
  else .ok []

/-- `processSiemensExtRef` (lines 371-399): the edits actually
dispatched, together with the JS error that escaped, if any (edits
dispatched before the error remain visible). -/
def processSiemensExtRef (doc : XNode) (st : PluginState) (e : ENode)
    (pre : Option ENode) : List Intent × Option Err :=
  if !(isSubscribedE e) && (match pre with
      | some p => !(isSubscribedE p)
      | none => false) then
    ([], none)
  else
    let fcdasE : Except Err (List ENode) :=
      if isSubscribedE e then .ok (findFCDAs doc e)
      else
        match pre with
        | some p => .ok (findFCDAs doc p)
        | none => .error (.typeError "findFCDAs of null")
    match fcdasE with
    | .error er => ([], some er)
    | .ok fcdas =>
      match fcdas.head? with
      | none => ([], none)
      | some f =>
        match modifySampledValueExtRefs doc st e pre f with
        | .error er => ([], some er)
        | .ok l1 =>
          match modifyValueAndQualityPair doc st e pre f with
          | .error er => (l1, some er)
          | .ok l2 => (l1 ++ l2, none)

/-- One edit record of an `EditEvent` (only `Update` on an element is
relevant to the handler). -/
inductive Edit where
  | update (path : List Nat)
  | other

/-- `event.detail`: a single edit record or arbitrarily nested arrays of
them. -/
inductive EditTree where
  | leaf (e : Edit)
  | batch (ts : List EditTree)

mutual
/-- `[event.detail].flat(Infinity)`. -/
def flattenEdits : EditTree → List Edit
  | .leaf e => [e]
  | .batch ts => flattenEditsList ts

/-- Helper of `flattenEdits`. -/
def flattenEditsList : List EditTree → List Edit
  | [] => []
  | t :: ts => flattenEdits t ++ flattenEditsList ts
end

/-- The `flatEdits.forEach` loop of `modifyAdditionalExtRefs`:
accumulated dispatches and the first escaping error, if any. -/
def processEdits (doc : XNode) (st : PluginState) : List Edit → Nat → List Intent × Option Err
  | [], _ => ([], none)
  | e :: rest, idx =>
    match e with
    | .update p =>
      if tagAt doc p == some "ExtRef" &&
          jsEq ((closestTag doc p "IED").bind (fun ip => attrAt doc ip "manufacturer"))
            (some "SIEMENS") then
        match processSiemensExtRef doc st ⟨doc, p⟩ ((st.preEventExtRef.get? idx).join) with
        | (l, some er) => (l, some er)
        | (l, none) =>
          match processEdits doc st rest (idx + 1) with
          | (l2, er2) => (l ++ l2, er2)
      else processEdits doc st rest (idx + 1)
    | .other => processEdits doc st rest (idx + 1)

/-- Result of one handler invocation: final component state, dispatched
edits, escaped error. -/
structure RunOut where
  state : PluginState
  intents : List Intent
  err : Option Err

/-- `modifyAdditionalExtRefs` (lines 414-434).  When disabled it
returns before the loop and before the clearing of the snapshot buffer;
an escaping error likewise skips the clearing. -/
def modifyAdditionalExtRefs (doc : XNode) (st : PluginState) (detail : EditTree) : RunOut :=
  if !st.enabled then ⟨st, [], none⟩
  else
    match processEdits doc st (flattenEdits detail) 0 with
    | (l, some er) => ⟨st, l, some er⟩
    | (l, none) => ⟨{ st with preEventExtRef := [], ignoreSupervision := false }, l, none⟩

/-!
Structural well-formedness used by the amended totality claim, and the
predicates / concrete documents the claim theorems refer to.
-/

mutual
/-- `P` holds at a node (sitting at absolute path `p`) and at all of its
descendants. -/
def allSub (P : List Nat → XNode → Bool) : XNode → List Nat → Bool
  | n, p =>
    match n with
    | .mk _ _ cs => P p n && allSubList P cs p 0

/-- Helper of `allSub` over a child list starting at index `i`. -/
def allSubList (P : List Nat → XNode → Bool) : List XNode → List Nat → Nat → Bool
  | [], _, _ => true
  | c :: rest, p, i => allSub P c (p ++ [i]) && allSubList P rest p (i + 1)
end

/-- Per-element structural conditions: every ExtRef lies inside an `LN`
and an `LDevice`; every FCDA has a grandparent; every control-block
element lies inside an `LN0` that lies inside an `LDevice`. -/
def wfEntry (doc : XNode) (p : List Nat) (n : XNode) : Bool :=
  (if tagN n == "ExtRef" then
      (closestTag doc p "LN").isSome && (closestTag doc p "LDevice").isSome
   else true) &&
  (if tagN n == "FCDA" then decide (2 ≤ p.length) else true) &&
  (if cbTagsAll.contains (tagN n) then
      (match closestTag doc p "LN0" with
       | none => false
       | some q => (closestTag doc q "LDevice").isSome)
   else true)

/-- Structurally well-formed document. -/
def wfDoc (doc : XNode) : Bool := allSub (wfEntry doc) doc []

/-- The five identity attributes of `isSubscribed`. -/
def fiveAttrs : List String := ["iedName", "ldInst", "lnClass", "lnInst", "doName"]

/-- `element.removeAttribute`. -/
def removeAttr (n : XNode) (a : String) : XNode :=
  .mk (tagN n) ((attrsN n).filter (fun pr => !(pr.1 == a))) (childrenN n)

/-- `element.setAttribute` for an attribute not yet present. -/
def addAttr (n : XNode) (a v : String) : XNode :=
  .mk (tagN n) ((a, v) :: attrsN n) (childrenN n)

/-- The reference-form quality matcher as claim C5 states it: the final
`/`-segment of `b`'s internal address must equal the whole string
`"q"`. -/
def refPairSegQ (a b : ENode) : Bool :=
  match attrOfE a "intAddr", attrOfE b "intAddr" with
  | some sa, some sb =>
    decide ((jsSplit sa '/').dropLast = (jsSplit sb '/').dropLast) &&
      ((jsSplit sb '/').getLast? == some "q")
  | _, _ => false

/-- Attribute list of a sampled-value FCDA used by the fixtures. -/
def fcdaAttrs (li dn : String) : List (String × String) :=
  [("ldInst", "LD"), ("lnClass", "TCTR"), ("lnInst", li), ("doName", "Amp"),
   ("daName", dn), ("fc", "MX")]

/-- An FCDA fixture row. -/
def fcdaRow (li dn : String) : XNode := .mk "FCDA" (fcdaAttrs li dn) []

/-- Fixture: a document whose `LDevice` holds an ExtRef nested inside
another ExtRef, next to a 4-element SV stream of FCDAs. -/
def docC9 : XNode :=
  .mk "SCL" []
    [.mk "LDevice" []
      [.mk "LN" [("lnClass", "TCTR")]
        [.mk "ExtRef" [("intAddr", "Amp;TCTR/Amp/i")]
          [.mk "ExtRef" [] []]]],
     .mk "DataSet" []
      [fcdaRow "1" "i", fcdaRow "1" "q", fcdaRow "2" "i", fcdaRow "2" "q"]]

/-- Fixture: a detached, fully subscribed pre-event ExtRef snapshot. -/
def preSub : ENode :=
  ⟨.mk "ExtRef" [("iedName", "A"), ("ldInst", "B"), ("lnClass", "C"),
    ("lnInst", "D"), ("doName", "E")] [], []⟩

/-- Fixture: enabled component state with an empty snapshot buffer. -/
def st0 : PluginState := ⟨true, [], false⟩

/-- Fixture: disabled component state still holding a snapshot. -/
def stOff : PluginState := ⟨false, [some preSub], true⟩

/-- Fixture: enabled component state still holding a snapshot. -/
def stOn : PluginState := ⟨true, [some preSub], true⟩

/-- Fixture: an ExtRef without any ancestor or attribute. -/
def bareExtRef : ENode := ⟨.mk "ExtRef" [] [], []⟩

/-- Fixture: a reference whose internal address ends in a value
attribute. -/
def aCE : ENode := ⟨.mk "ExtRef" [("intAddr", "Sig;/Ind/stVal")] [], []⟩

/-- Fixture: a reference whose internal address ends in `seq` (last
character `q`, but the segment is not the string `q`). -/
def bCE : ENode := ⟨.mk "ExtRef" [("intAddr", "Sig;/Ind/seq")] [], []⟩

/-- Fixture: a lone FCDA element. -/
def fcdaCE : ENode := ⟨.mk "FCDA" [("ldInst", "LD")] [], []⟩

/-- Fixture: 8 alternating value/`q` FCDAs sharing device, class and
object, `fc="MX"`, whose `lnInst` run `1,1,2,2,1,1,2,2` breaks ascending
order at position 4 while never dropping below the first value. -/
def docC7 : XNode :=
  .mk "DataSet" []
    [fcdaRow "1" "i", fcdaRow "1" "q", fcdaRow "2" "i", fcdaRow "2" "q",
     fcdaRow "1" "i", fcdaRow "1" "q", fcdaRow "2" "i", fcdaRow "2" "q"]

/-- Fixture: like `docC7` but `lnInst` drops below the first element's
value at position 2. -/
def docC7b : XNode :=
  .mk "DataSet" []
    [fcdaRow "2" "i", fcdaRow "2" "q", fcdaRow "1" "i", fcdaRow "1" "q",
     fcdaRow "1" "i", fcdaRow "1" "q", fcdaRow "1" "i", fcdaRow "1" "q"]

/-- Fixture: like `docC7` but position 1 carries a non-`q` attribute. -/
def docC7c : XNode :=
  .mk "DataSet" []
    [fcdaRow "1" "i", fcdaRow "1" "x", fcdaRow "1" "i", fcdaRow "1" "q",
     fcdaRow "1" "i", fcdaRow "1" "q", fcdaRow "1" "i", fcdaRow "1" "q"]

/-- Fixture: an `LN` holding one ExtRef matching `fcdaM`. -/
def docM : XNode :=
  .mk "LN" [("lnClass", "TCTR")] [.mk "ExtRef" [("intAddr", "Amp;TCTR/Amp/i")] []]

/-- Fixture: the ExtRef of `docM`. -/
def extRefM : ENode := ⟨docM, [0]⟩

/-- Fixture: a lone FCDA descriptor matching `extRefM`. -/
def fcdaM : ENode := ⟨fcdaRow "1" "i", []⟩

/-- Fixture: a minimal well-formed document (ExtRef inside LN inside
LDevice). -/
def docWF : XNode := .mk "SCL" [] [.mk "LDevice" [] [.mk "LN" [] [.mk "ExtRef" [] []]]]

/-- Fixture: a subscribed bare ExtRef node. -/
def nC1 : XNode :=
  .mk "ExtRef" [("iedName", "I"), ("ldInst", "L"), ("lnClass", "C"),
    ("lnInst", "N"), ("doName", "D")] []

/-!
Helper lemmas
-/

@[simp] theorem tagN_mk (t : String) (a : List (String × String)) (c : List XNode) :
    tagN (.mk t a c) = t := rfl

@[simp] theorem attrsN_mk (t : String) (a : List (String × String)) (c : List XNode) :
    attrsN (.mk t a c) = a := rfl

@[simp] theorem childrenN_mk (t : String) (a : List (String × String)) (c : List XNode) :
    childrenN (.mk t a c) = c := rfl

theorem hasAttr_remove_self (n : XNode) (a : String) :
    hasAttrN (removeAttr n a) a = false := by
  simp [hasAttrN, removeAttr, List.any_eq_true, List.mem_filter]

theorem hasAttr_add_same (n : XNode) (a v : String) :
    hasAttrN (addAttr n a v) a = true := by
  simp [hasAttrN, addAttr]

theorem hasAttr_add_ne (n : XNode) (a v b : String) (h : b ≠ a) :
    hasAttrN (addAttr n a v) b = hasAttrN n b := by
  simp [hasAttrN, addAttr, List.any_cons, beq_iff_eq, Ne.symm h]

theorem isSubscribedN_eq_all (n : XNode) :
    isSubscribedN n = fiveAttrs.all (fun s => hasAttrN n s) := by
  simp [isSubscribedN, fiveAttrs, Bool.and_assoc]

/-!
Claim C1
-/

/-- Claim C1: for every ExtRef element, `isSubscribed` is true iff all
five attributes `iedName`, `ldInst`, `lnClass`, `lnInst`, `doName` are
present; removing any one of the five from a subscribed element makes it
false, and adding the missing one to an element carrying the other four
makes it true. -/
theorem isSubscribed_iff_five_attrs (n : XNode) (htag : tagN n = "ExtRef") :
    (isSubscribedN n = true ↔ ∀ s ∈ fiveAttrs, hasAttrN n s = true) ∧
    (∀ s ∈ fiveAttrs, isSubscribedN n = true → isSubscribedN (removeAttr n s) = false) ∧
    (∀ s ∈ fiveAttrs, (∀ t ∈ fiveAttrs, t ≠ s → hasAttrN n t = true) →
      ∀ v, isSubscribedN (addAttr n s v) = true) := by
  refine ⟨?_, ?_, ?_⟩
  · rw [isSubscribedN_eq_all]
    exact List.all_eq_true
  · intro s hs _
    rcases Bool.eq_false_or_eq_true (isSubscribedN (removeAttr n s)) with h | h
    · exfalso
      rw [isSubscribedN_eq_all, List.all_eq_true] at h
      have hf := h s hs
      rw [hasAttr_remove_self] at hf
      exact Bool.false_ne_true hf
    · exact h
  · intro s _ h v
    rw [isSubscribedN_eq_all, List.all_eq_true]
    intro t ht
    by_cases hts : t = s
    · subst hts
      exact hasAttr_add_same n t v
    · rw [hasAttr_add_ne n s v t hts]
      exact h t ht hts

/-- Witness for C1 at a concrete subscribed ExtRef. -/
theorem isSubscribed_iff_five_attrs_witness :
    isSubscribedN nC1 = true ∧
    isSubscribedN (removeAttr nC1 "ldInst") = false ∧
    isSubscribedN (addAttr (removeAttr nC1 "ldInst") "ldInst" "L2") = true := by
  refine ⟨?_, ?_, ?_⟩
  · exact (isSubscribed_iff_five_attrs nC1 rfl).1.mpr (by decide)
  · exact (isSubscribed_iff_five_attrs nC1 rfl).2.1 "ldInst" (by decide) (by decide)
  · exact (isSubscribed_iff_five_attrs (removeAttr nC1 "ldInst") rfl).2.2 "ldInst"
      (by decide) (by decide) "L2"

/-!
Claim C5
-/

/-- Counterexample to claim C5 as stated: `extRefMatchSiemens` accepts a
pair whose final data-attribute segment is `seq`, not the literal
string `q` (only the final character is compared). -/
theorem extRefMatchSiemens_accepts_seq :
    extRefMatchSiemens aCE bCE = true ∧ refPairSegQ aCE bCE = false :=
  ⟨by decide, by decide⟩

/-- Claim C5 (amended): `extRefMatchSiemens` returns true iff both
internal addresses are present, all `/`-segments before the final one
are equal, and the final segment of B's address ends with the character
`q`. -/
theorem extRefMatchSiemens_iff_last_char_q (a b : ENode) :
    extRefMatchSiemens a b = true ↔
      (∃ sa sb, attrOfE a "intAddr" = some sa ∧ attrOfE b "intAddr" = some sb ∧
        (jsSplit sa '/').dropLast = (jsSplit sb '/').dropLast ∧
        ∃ t, ((jsSplit sb '/').getLast? = some t ∧ t.data.getLast? = some 'q')) := by
  cases ha : attrOfE a "intAddr" with
  | none => simp [extRefMatchSiemens, ha]
  | some sa =>
    cases hb : attrOfE b "intAddr" with
    | none => simp [extRefMatchSiemens, ha, hb]
    | some sb =>
      simp only [extRefMatchSiemens, ha, hb, Bool.and_eq_true, decide_eq_true_eq,
        Option.some.injEq]
      constructor
      · rintro ⟨hinit, hlast⟩
        refine ⟨sa, sb, rfl, rfl, hinit, ?_⟩
        cases hgl : (jsSplit sb '/').getLast? with
        | none => rw [hgl] at hlast; exact absurd hlast (by simp)
        | some t =>
          rw [hgl] at hlast
          exact ⟨t, rfl, by simpa using hlast⟩
      · rintro ⟨sa', sb', hsa, hsb, hinit, t, hgl, hq⟩
        cases hsa
        cases hsb
        refine ⟨hinit, ?_⟩
        rw [hgl]
        simpa using hq

/-!
Claim C6
-/

/-- Counterexample to claim C6: the descriptor-form matcher applied to
one and the same FCDA element returns true, not false. -/
theorem isfcdaPairWithQuality_self_true :
    isfcdaPairWithQuality fcdaCE fcdaCE = true := rfl

/-- Claim C6 (amended): `isfcdaPairWithQuality` is reflexive — every
attribute of an element trivially equals itself, so every FCDA matches
itself. -/
theorem isfcdaPairWithQuality_reflexive (a : ENode) :
    isfcdaPairWithQuality a a = true := by
  simp [isfcdaPairWithQuality, jsEq]

/-!
`svOrderedFCDAs` counting lemmas
-/

theorem svCount_le_len (f : ENode) :
    ∀ (l : List ENode) (i : Nat), svCount f l i ≤ l.length := by
  intro l
  induction l with
  | nil => intro i; simp [svCount]
  | cons c rest ih =>
    intro i
    simp only [svCount, List.length_cons]
    by_cases h : svAccept f c i
    · rw [if_pos h]
      exact Nat.add_le_add_right (ih (i + 1)) 1
    · rw [if_neg h]
      exact Nat.zero_le _

theorem gns_len_le (root : XNode) :
    ∀ (k : Nat) (p : List Nat), (getNextSiblings root p k).length ≤ k := by
  intro k
  induction k with
  | zero => intro p; simp [getNextSiblings]
  | succ m ih =>
    intro p
    simp only [getNextSiblings]
    cases nextSibPath root p with
    | none => simp
    | some q =>
      simp only [List.length_cons]
      exact Nat.add_le_add_right (ih q) 1

theorem svCount_all (f : ENode) :
    ∀ (l : List ENode) (i : Nat),
      (∀ k c, l.get? k = some c → svAccept f c (i + k) = true) →
      svCount f l i = l.length := by
  intro l
  induction l with
  | nil => intro i _; simp [svCount]
  | cons c rest ih =>
    intro i h
    have h0 : svAccept f c i = true := by
      have := h 0 c rfl
      simpa using this
    simp only [svCount, if_pos h0, List.length_cons]
    have := ih (i + 1) (fun k d hk => by
      have := h (k + 1) d (by simpa using hk)
      simpa [Nat.add_assoc, Nat.add_comm 1 k] using this)
    omega

theorem svCount_le_of_reject (f : ENode) :
    ∀ (l : List ENode) (i k : Nat) (c : ENode),
      l.get? k = some c → svAccept f c (i + k) = false → svCount f l i ≤ k := by
  intro l
  induction l with
  | nil => intro i k c hk _; simp [svCount]
  | cons d rest ih =>
    intro i k c hk hrej
    cases k with
    | zero =>
      have hd : d = c := by simpa using hk
      subst hd
      simp only [svCount]
      rw [if_neg]
      simp only [Nat.add_zero] at hrej
      simp [hrej]
    | succ m =>
      simp only [svCount]
      by_cases hacc : svAccept f d i
      · rw [if_pos hacc]
        have hget : rest.get? m = some c := by simpa using hk
        have hstep : svCount f rest (i + 1) ≤ m := by
          apply ih (i + 1) m c hget
          have : i + 1 + m = i + (m + 1) := by omega
          rw [this]
          exact hrej
        omega
      · rw [if_neg hacc]
        exact Nat.zero_le _

/-!
Claim C7
-/

/-- Counterexample to claim C7: in `docC7` the run of 8 FCDAs satisfies
the claim's shape and first breaks ascending `lnInst` order at position
4 (`1 < 2` after `1,1,2,2`), yet the count is 8, not at most 4 — the
source compares each instance against the first element's instance,
never against the running one. -/
theorem svOrderedFCDAs_order_break_counterexample :
    svOrderedFCDAs ⟨docC7, [0]⟩ = 8 ∧
    (svList ⟨docC7, [0]⟩).length = 8 ∧
    jsLt (instOf ⟨docC7, [4]⟩) (instOf ⟨docC7, [3]⟩) = true ∧
    jsLt (instOf ⟨docC7, [1]⟩) (instOf ⟨docC7, [0]⟩) = false ∧
    jsLt (instOf ⟨docC7, [2]⟩) (instOf ⟨docC7, [1]⟩) = false ∧
    jsLt (instOf ⟨docC7, [3]⟩) (instOf ⟨docC7, [2]⟩) = false ∧
    ¬(svOrderedFCDAs ⟨docC7, [0]⟩ ≤ 4) := by
  refine ⟨by decide, by decide, by decide, by decide, by decide, by decide, by decide⟩

/-- Claim C7 (amended): over the window of the first FCDA and its next 7
siblings, if all elements share `ldInst`, `lnClass` and `doName` with
the first, carry `fc="MX"`, odd positions carry `daName="q"`, and no
`lnInst` is below the first element's, then the count equals the window
length (8 for a full window); if the element at position `k` has
`lnInst` strictly below the FIRST element's, the count is at most `k`;
and if an odd position `k` carries a `daName` other than `"q"`, the
count is at most `k`. -/
theorem svOrderedFCDAs_count_characterization (f : ENode) :
    ((∀ pr ∈ (svList f).enum,
        (jsEq (attrOfE pr.2 "ldInst") (attrOfE f "ldInst") = true ∧
         jsEq (attrOfE pr.2 "lnClass") (attrOfE f "lnClass") = true ∧
         jsEq (attrOfE pr.2 "doName") (attrOfE f "doName") = true ∧
         attrOfE pr.2 "fc" = some "MX" ∧
         jsLt (instOf pr.2) (instOf f) = false ∧
         (pr.1 % 2 = 1 → attrOfE pr.2 "daName" = some "q"))) →
      svOrderedFCDAs f = (svList f).length) ∧
    (∀ k c, (svList f).get? k = some c → jsLt (instOf c) (instOf f) = true →
      svOrderedFCDAs f ≤ k) ∧
    (∀ k c, (svList f).get? k = some c → k % 2 = 1 →
      ¬(attrOfE c "daName" = some "q") → svOrderedFCDAs f ≤ k) := by
  refine ⟨?_, ?_, ?_⟩
  · intro h
    apply svCount_all
    intro k c hk
    have hmem : (k, c) ∈ (svList f).enum := by
      rw [List.mem_enum_iff_getElem?]
      rw [← List.get?_eq_getElem?]
      exact hk
    obtain ⟨h1, h2, h3, h4, h5, h6⟩ := h (k, c) hmem
    simp only [svAccept, Nat.zero_add, h1, h2, h3, h4, h5, Bool.and_true, Bool.true_and,
      Bool.not_false]
    rcases Nat.mod_two_eq_zero_or_one k with hm | hm
    · simp [hm]
    · simp [hm, h6 hm]
  · intro k c hk hlt
    apply svCount_le_of_reject f (svList f) 0 k c hk
    simp [svAccept, hlt]
  · intro k c hk hodd hq
    apply svCount_le_of_reject f (svList f) 0 k c hk
    have hqb : (attrOfE c "daName" == some "q") = false := by
      simpa using hq
    simp [svAccept, hodd, hqb]

/-- Witness for the amended C7 at concrete runs: the full alternating
`docC7` run counts 8; the below-first drop at position 2 of `docC7b`
caps the count at 2; the non-`q` odd position 1 of `docC7c` caps the
count at 1. -/
theorem svOrderedFCDAs_count_characterization_witness :
    svOrderedFCDAs ⟨docC7, [0]⟩ = (svList ⟨docC7, [0]⟩).length ∧
    svOrderedFCDAs ⟨docC7b, [0]⟩ ≤ 2 ∧
    svOrderedFCDAs ⟨docC7c, [0]⟩ ≤ 1 := by
  refine ⟨?_, ?_, ?_⟩
  · exact (svOrderedFCDAs_count_characterization ⟨docC7, [0]⟩).1 (by decide)
  · exact (svOrderedFCDAs_count_characterization ⟨docC7b, [0]⟩).2.1 2 ⟨docC7b, [2]⟩
      (by decide) (by decide)
  · exact (svOrderedFCDAs_count_characterization ⟨docC7c, [0]⟩).2.2 1 ⟨docC7c, [1]⟩
      (by decide) (by decide) (by decide)

/-!
Claim C8
-/

/-- Claim C8: `svOrderedFCDAs` always returns a count between 0 and 8,
and the sampled-value path dispatches only when the count exceeds 2 —
with a count of at most 2, `modifySampledValueExtRefs` returns without
dispatching anything. -/
theorem svOrderedFCDAs_bounds_and_sv_gate (doc : XNode) (st : PluginState) (e : ENode)
    (pre : Option ENode) (f : ENode) :
    svOrderedFCDAs f ≤ 8 ∧
    (svOrderedFCDAs f ≤ 2 → modifySampledValueExtRefs doc st e pre f = .ok []) := by
  constructor
  · have h1 : svOrderedFCDAs f ≤ (svList f).length := svCount_le_len f (svList f) 0
    have h2 : (svList f).length ≤ 8 := by
      simp only [svList, List.length_cons, List.length_map]
      have := gns_len_le f.root 7 f.path
      omega
    omega
  · intro h
    simp only [modifySampledValueExtRefs]
    rw [if_neg (by omega)]

/-- Witness for C8: on a lone FCDA without `fc` the count is 0, so the
sampled-value path emits nothing. -/
theorem svOrderedFCDAs_bounds_and_sv_gate_witness :
    svOrderedFCDAs fcdaCE ≤ 8 ∧
    modifySampledValueExtRefs fcdaCE.root st0 bareExtRef none fcdaCE = .ok [] := by
  refine ⟨(svOrderedFCDAs_bounds_and_sv_gate fcdaCE.root st0 bareExtRef none fcdaCE).1, ?_⟩
  exact (svOrderedFCDAs_bounds_and_sv_gate fcdaCE.root st0 bareExtRef none fcdaCE).2 (by decide)

/-!
Claim C4 helpers
-/

theorem flatten_nil_of_all_nil {α : Type} :
    ∀ (L : List (List α)), (∀ x ∈ L, x = []) → L.flatten = [] := by
  intro L
  induction L with
  | nil => intro _; rfl
  | cons x xs ih =>
    intro h
    simp only [List.flatten_cons]
    rw [h x (by simp), ih (fun y hy => h y (by simp [hy]))]
    rfl

theorem svEmit_silent (st : PluginState) (e : ENode) (cb : Option (List Nat))
    (pr : ENode × ENode) (he : isSubscribedE e = true) :
    svEmit st e true cb pr = [] := by
  simp [svEmit, he]

theorem msve_silent (doc : XNode) (st : PluginState) (e : ENode) (pre : Option ENode)
    (f : ENode) (he : isSubscribedE e = true) (hw : wasSub pre = true) :
    modifySampledValueExtRefs doc st e pre f = .ok [] ∨
      (∃ er, modifySampledValueExtRefs doc st e pre f = .error er) := by
  simp only [modifySampledValueExtRefs]
  by_cases hn : svOrderedFCDAs f > 2
  · rw [if_pos hn]
    cases hcb : findControlBlock doc e with
    | error er => right; exact ⟨er, rfl⟩
    | ok cb =>
      simp only [bind, Except.bind]
      cases hld : closestTag e.root e.path "LDevice" with
      | none => right; exact ⟨_, rfl⟩
      | some ldp =>
        dsimp only
        cases hm : matchFCDAsToExtRefs
            (f ::
              (getNextSiblings f.root f.path (svOrderedFCDAs f - 1)).map
                (fun q => (⟨f.root, q⟩ : ENode)))
            ((((elemsByTagAt e.root ldp "ExtRef").filter
                (fun q => cdpCode e.path q != 2)).take (svOrderedFCDAs f)).map
              (fun q => (⟨e.root, q⟩ : ENode))) with
        | error er => right; exact ⟨er, rfl⟩
        | ok pairs =>
          left
          dsimp only
          simp only [Except.ok.injEq]
          apply flatten_nil_of_all_nil
          intro x hx
          rcases List.mem_map.mp hx with ⟨pr, _, hpr⟩
          rw [← hpr, hw]
          exact svEmit_silent st e cb pr he
  · rw [if_neg hn]
    left; rfl

theorem mvqp_silent (doc : XNode) (st : PluginState) (e : ENode) (pre : Option ENode)
    (f : ENode) (he : isSubscribedE e = true) (hw : wasSub pre = true) :
    modifyValueAndQualityPair doc st e pre f = .ok [] ∨
      (∃ er, modifyValueAndQualityPair doc st e pre f = .error er) := by
  simp only [modifyValueAndQualityPair, bind, Except.bind]
  cases hcb : findControlBlock doc e with
  | error er => right; exact ⟨er, rfl⟩
  | ok cb =>
    dsimp only
    cases hnf : nextSibPath f.root f.path with
    | none => left; rfl
    | some nf =>
      cases hne : nextSibPath e.root e.path with
      | none => left; rfl
      | some ne_
      =>
        dsimp only
        by_cases hmatch : (extRefMatchSiemens e ⟨e.root, ne_⟩ &&
            isfcdaPairWithQuality f ⟨f.root, nf⟩) = true
        · rw [if_pos hmatch]
          left
          rw [hw, he]
          simp
        · rw [if_neg hmatch]
          left; rfl

/-!
Claim C4
-/

/-- Claim C4: on the Subscribed-to-Subscribed transition (live element
and pre-event snapshot both subscribed) `processSiemensExtRef`
dispatches no subscribe and no unsubscribe edit, on every invocation. -/
theorem processSiemensExtRef_subscribed_to_subscribed_silent (doc : XNode)
    (st : PluginState) (e p : ENode) (he : isSubscribedE e = true)
    (hp : isSubscribedE p = true) :
    (processSiemensExtRef doc st e (some p)).1 = [] := by
  have hw : wasSub (some p) = true := hp
  simp only [processSiemensExtRef, he]
  simp only [Bool.not_true, Bool.false_and, Bool.false_eq_true, if_false, if_true]
  cases hh : (findFCDAs doc e).head? with
  | none => rfl
  | some f =>
    dsimp only
    rcases msve_silent doc st e (some p) f he hw with h1 | ⟨er, h1⟩
    · rw [h1]
      rcases mvqp_silent doc st e (some p) f he hw with h2 | ⟨er2, h2⟩
      · rw [h2]
        try rfl
      · rw [h2]
        try rfl
    · rw [h1]
      try rfl

/-- Witness for C4 at a concrete subscribed element and snapshot. -/
theorem processSiemensExtRef_subscribed_to_subscribed_silent_witness :
    (processSiemensExtRef preSub.root st0 preSub (some preSub)).1 = [] :=
  processSiemensExtRef_subscribed_to_subscribed_silent preSub.root st0 preSub preSub
    (by decide) (by decide)

/-!
Claim C10
-/

theorem matchLoop_eq_simple (fcdas : List ENode) :
    ∀ (xs : List ENode) (idx : Nat),
      matchLoop fcdas xs idx = matchLoopSimple fcdas xs idx := by
  intro xs
  induction xs with
  | nil => intro idx; rfl
  | cons x rest ih =>
    intro idx
    simp only [matchLoop, matchLoopSimple]
    cases closestTag x.root x.path "LN" with
    | none => rfl
    | some lnp =>
      simp only []
      by_cases hg : ((attrOfE x "intAddr").isSome && (attrAt x.root lnp "lnClass").isSome) = true
      · rw [if_pos hg, if_pos hg]
        cases fcdas.get? idx with
        | none => rfl
        | some f =>
          simp only [bind, Except.bind, ih (idx + 1)]
          cases matchLoopSimple fcdas rest (idx + 1) with
          | error er => rfl
          | ok r =>
            simp only [beq_self_eq_true, Bool.and_true]
      · rw [if_neg hg, if_neg hg]
        simp only [bind, Except.bind, ih (idx + 1)]

/-- Claim C10: the subscription-status consistency clause of
`matchFCDAsToExtRefs` compares an expression with itself and is
vacuous — when the FCDA list is at least as long as the ExtRef list the
function returns exactly the pairs of the simpler matcher that checks
only internal-address and enclosing-LN-class equality. -/
theorem matchFCDAsToExtRefs_status_clause_vacuous (fcdas extRefs : List ENode)
    (hlen : extRefs.length ≤ fcdas.length) :
    matchFCDAsToExtRefs fcdas extRefs = matchFCDAsToExtRefsSimple fcdas extRefs :=
  matchLoop_eq_simple fcdas extRefs 0

/-- Witness for C10 on a concrete one-element match. -/
theorem matchFCDAsToExtRefs_status_clause_vacuous_witness :
    matchFCDAsToExtRefs [fcdaM] [extRefM] = matchFCDAsToExtRefsSimple [fcdaM] [extRefM] ∧
    matchFCDAsToExtRefs [fcdaM] [extRefM] = .ok [(fcdaM, extRefM)] :=
  ⟨matchFCDAsToExtRefs_status_clause_vacuous [fcdaM] [extRefM] (by decide), by rfl⟩

/-!
Claim C2
-/

/-- Counterexample to claim C2: when the plugin is disabled the handler
returns before the clearing lines, so a previously captured snapshot
buffer (and the supervision flag) survives the invocation. -/
theorem modifyAdditional_disabled_keeps_snapshot :
    (modifyAdditionalExtRefs docC9 stOff (.leaf .other)).state.preEventExtRef.isEmpty = false ∧
    (modifyAdditionalExtRefs docC9 stOff (.leaf .other)).state.ignoreSupervision = true := by
  exact ⟨rfl, rfl⟩

/-- Claim C2 (amended): when the plugin is enabled and no edit's
processing throws, `modifyAdditionalExtRefs` ends with an empty snapshot
buffer and a cleared supervision flag; when disabled it leaves the state
untouched. -/
theorem modifyAdditional_clears_snapshot_when_enabled (doc : XNode) (st : PluginState)
    (detail : EditTree) :
    (st.enabled = true → (modifyAdditionalExtRefs doc st detail).err = none →
      ((modifyAdditionalExtRefs doc st detail).state.preEventExtRef = [] ∧
       (modifyAdditionalExtRefs doc st detail).state.ignoreSupervision = false)) ∧
    (st.enabled = false → (modifyAdditionalExtRefs doc st detail).state = st) := by
  constructor
  · intro he
    simp only [modifyAdditionalExtRefs, he, Bool.not_true, Bool.false_eq_true, if_false]
    cases hpe : processEdits doc st (flattenEdits detail) 0 with
    | mk l oe =>
      cases oe with
      | none => intro _; exact ⟨rfl, rfl⟩
      | some er => intro hco; exact absurd hco (by simp)
  · intro he
    simp only [modifyAdditionalExtRefs, he, Bool.not_false, if_true]

/-- Witness for the amended C2: an enabled state holding a stale
snapshot is cleared by a cycle that processes no matching edit. -/
theorem modifyAdditional_clears_snapshot_witness :
    (modifyAdditionalExtRefs docC9 stOn (.leaf .other)).state.preEventExtRef = [] ∧
    (modifyAdditionalExtRefs docC9 stOn (.leaf .other)).state.ignoreSupervision = false :=
  (modifyAdditional_clears_snapshot_when_enabled docC9 stOn (.leaf .other)).1 rfl rfl

/-!
Tree lemmas for the totality and document-order claims
-/

theorem subtreeAt_append (p : List Nat) :
    ∀ (root : XNode) (q : List Nat),
      subtreeAt root (p ++ q) =
        match subtreeAt root p with
        | some n => subtreeAt n q
        | none => none := by
  induction p with
  | nil => intro root q; rfl
  | cons i p' ih =>
    intro root q
    simp only [List.cons_append, subtreeAt]
    cases childAt root i with
    | none => rfl
    | some c => exact ih c q

theorem allSubList_get (P : List Nat → XNode → Bool) :
    ∀ (cs : List XNode) (p : List Nat) (j : Nat),
      allSubList P cs p j = true →
      ∀ (i : Nat) (c : XNode), cs.get? i = some c → allSub P c (p ++ [j + i]) = true := by
  intro cs
  induction cs with
  | nil => intro p j _ i c hc; simp at hc
  | cons d rest ih =>
    intro p j h i c hc
    simp only [allSubList, Bool.and_eq_true] at h
    cases i with
    | zero =>
      have hd : d = c := by simpa using hc
      subst hd
      simpa using h.1
    | succ m =>
      have hget : rest.get? m = some c := by simpa using hc
      have := ih p (j + 1) h.2 m c hget
      have harith : j + 1 + m = j + (m + 1) := by omega
      rw [harith] at this
      exact this

theorem allSub_spec (P : List Nat → XNode → Bool) :
    ∀ (q : List Nat) (n : XNode) (p : List Nat),
      allSub P n p = true → ∀ m, subtreeAt n q = some m → P (p ++ q) m = true := by
  intro q
  induction q with
  | nil =>
    intro n p h m hm
    cases n with
    | mk t a cs =>
      have hnm : XNode.mk t a cs = m := by simpa [subtreeAt] using hm
      rw [← hnm]
      simp only [allSub, Bool.and_eq_true] at h
      simpa using h.1
  | cons i q' ih =>
    intro n p h m hm
    cases n with
    | mk t a cs =>
      simp only [subtreeAt, childAt, childrenN_mk] at hm
      cases hc : cs.get? i with
      | none => rw [hc] at hm; exact absurd hm (by simp)
      | some c =>
        rw [hc] at hm
        simp only [allSub, Bool.and_eq_true] at h
        have hsub : allSub P c (p ++ [0 + i]) = true :=
          allSubList_get P cs p 0 h.2 i c hc
        have hsub' : allSub P c (p ++ [i]) = true := by simpa using hsub
        have := ih c (p ++ [i]) hsub' m hm
        simpa [List.append_assoc] using this

theorem wf_at (doc : XNode) (hwf : wfDoc doc = true) :
    ∀ (q : List Nat) (m : XNode), subtreeAt doc q = some m → wfEntry doc q m = true := by
  intro q m hm
  have := allSub_spec (wfEntry doc) q doc [] hwf m hm
  simpa using this

theorem drop_get (c : XNode) :
    ∀ (full : List XNode) (i : Nat) (rest : List XNode),
      full.drop i = c :: rest → full.get? i = some c := by
  intro full
  induction full with
  | nil => intro i rest h; simp at h
  | cons x xs ih =>
    intro i rest h
    cases i with
    | zero => simp at h; simp [h.1]
    | succ m =>
      simp only [List.drop_succ_cons] at h
      simpa using ih m rest h

theorem drop_succ (c : XNode) :
    ∀ (full : List XNode) (i : Nat) (rest : List XNode),
      full.drop i = c :: rest → full.drop (i + 1) = rest := by
  intro full
  induction full with
  | nil => intro i rest h; simp at h
  | cons x xs ih =>
    intro i rest h
    cases i with
    | zero => simp at h; simp [h.2]
    | succ m =>
      simp only [List.drop_succ_cons] at h
      simpa using ih m rest h

mutual
theorem elemsUnder_sound (tag : String) (root : XNode) :
    ∀ (n : XNode) (p : List Nat), subtreeAt root p = some n →
      ∀ q ∈ elemsUnder tag n p, ∃ m, subtreeAt root q = some m ∧ tagN m = tag := by
  intro n p hv q hq
  cases n with
  | mk t a cs =>
    exact elemsUnderList_sound tag root t a cs cs 0 p hv (by simp) q hq

theorem elemsUnderList_sound (tag : String) (root : XNode) (t : String)
    (a : List (String × String)) :
    ∀ (cs full : List XNode) (i : Nat) (p : List Nat),
      subtreeAt root p = some (.mk t a full) → full.drop i = cs →
      ∀ q ∈ elemsUnderList tag cs p i, ∃ m, subtreeAt root q = some m ∧ tagN m = tag := by
  intro cs
  match cs with
  | [] => intro full i p _ _ q hq; simp [elemsUnderList] at hq
  | c :: rest =>
    intro full i p hv hdrop q hq
    have hchild : subtreeAt root (p ++ [i]) = some c := by
      rw [subtreeAt_append]
      rw [hv]
      simp only [subtreeAt, childAt, childrenN_mk]
      rw [drop_get c full i rest hdrop]
    simp only [elemsUnderList, List.mem_append] at hq
    rcases hq with (hq | hq) | hq
    · by_cases htag : (tagN c == tag) = true
      · rw [if_pos htag] at hq
        have : q = p ++ [i] := by simpa using hq
        subst this
        exact ⟨c, hchild, by simpa using htag⟩
      · rw [if_neg htag] at hq
        simp at hq
    · exact elemsUnder_sound tag root c (p ++ [i]) hchild q hq
    · exact elemsUnderList_sound tag root t a rest full (i + 1) p hv
        (drop_succ c full i rest hdrop) q hq
end

theorem closest_sound (root : XNode) (tag : String) :
    ∀ (rp : List Nat) (q : List Nat), closestFrom root tag rp = some q →
      ∃ m, subtreeAt root q = some m ∧ tagN m = tag := by
  intro rp
  induction rp with
  | nil =>
    intro q h
    simp only [closestFrom] at h
    by_cases htag : (tagN root == tag) = true
    · rw [if_pos htag] at h
      have : q = [] := by simpa using h.symm
      subst this
      exact ⟨root, rfl, by simpa using htag⟩
    · rw [if_neg htag] at h
      simp at h
  | cons j rest ih =>
    intro q h
    simp only [closestFrom] at h
    split at h
    next n heq =>
      split at h
      next htag =>
        have : q = (j :: rest).reverse := by simpa using h.symm
        subst this
        exact ⟨n, heq, by simpa using htag⟩
      next => exact ih q h
    next => exact ih q h

theorem closestTag_sound (root : XNode) (p : List Nat) (tag : String) (q : List Nat)
    (h : closestTag root p tag = some q) :
    ∃ m, subtreeAt root q = some m ∧ tagN m = tag :=
  closest_sound root tag p.reverse q h

theorem valid_dropLast (root : XNode) (p : List Nat) (m : XNode)
    (h : subtreeAt root p = some m) : ∃ k, subtreeAt root p.dropLast = some k := by
  cases hp : p.getLast? with
  | none =>
    have : p = [] := by
      cases p with
      | nil => rfl
      | cons x xs => simp [List.getLast?_eq_getLast] at hp
    subst this
    exact ⟨root, rfl⟩
  | some i =>
    have hne : p ≠ [] := by
      intro hnil; subst hnil; simp at hp
    have hsplit : p.dropLast ++ [p.getLast hne] = p := List.dropLast_append_getLast hne
    rw [← hsplit] at h
    rw [subtreeAt_append] at h
    cases hd : subtreeAt root p.dropLast with
    | none => rw [hd] at h; exact absurd h (by simp)
    | some k => exact ⟨k, rfl⟩

theorem filterE_ok (pred : α → Except Err Bool) :
    ∀ (l : List α), (∀ x ∈ l, ∃ b, pred x = .ok b) → ∃ r, filterE pred l = .ok r := by
  intro l
  induction l with
  | nil => intro _; exact ⟨[], rfl⟩
  | cons x xs ih =>
    intro h
    obtain ⟨b, hb⟩ := h x (by simp)
    obtain ⟨r, hr⟩ := ih (fun y hy => h y (by simp [hy]))
    refine ⟨if b then x :: r else r, ?_⟩
    simp only [filterE, bind, Except.bind, hb, hr]

theorem mapE_ok (f : α → Except Err β) :
    ∀ (l : List α), (∀ x ∈ l, ∃ y, f x = .ok y) → ∃ r, mapE f l = .ok r := by
  intro l
  induction l with
  | nil => intro _; exact ⟨[], rfl⟩
  | cons x xs ih =>
    intro h
    obtain ⟨y, hy⟩ := h x (by simp)
    obtain ⟨r, hr⟩ := ih (fun z hz => h z (by simp [hz]))
    refine ⟨y :: r, ?_⟩
    simp only [mapE, bind, Except.bind, hy, hr]

theorem get_some_of_lt {α : Type} :
    ∀ (l : List α) (i : Nat), i < l.length → ∃ c, l.get? i = some c := by
  intro l i h
  cases hg : l.get? i with
  | none =>
    rw [List.get?_eq_none] at hg
    omega
  | some c => exact ⟨c, rfl⟩

theorem gns_take (root : XNode) :
    ∀ (k m : Nat) (p : List Nat), k ≤ m →
      getNextSiblings root p k = (getNextSiblings root p m).take k := by
  intro k
  induction k with
  | zero => intro m p _; simp [getNextSiblings]
  | succ j ih =>
    intro m p hkm
    cases m with
    | zero => omega
    | succ m' =>
      simp only [getNextSiblings]
      cases nextSibPath root p with
      | none => simp
      | some q =>
        simp only [List.take_succ_cons]
        rw [ih m' q (by omega)]

/-!
Totality of `findControlBlock` on well-formed documents
-/

theorem elemsByTagAt_sound (root : XNode) (p : List Nat) (tag : String) :
    ∀ q ∈ elemsByTagAt root p tag, ∃ m, subtreeAt root q = some m ∧ tagN m = tag := by
  intro q hq
  simp only [elemsByTagAt] at hq
  cases hv : subtreeAt root p with
  | none => rw [hv] at hq; simp at hq
  | some n =>
    rw [hv] at hq
    exact elemsUnder_sound tag root n p hv q hq

theorem findFCDAs_sound (doc : XNode) (e : ENode) :
    ∀ f ∈ findFCDAs doc e,
      f.root = doc ∧ ∃ m, subtreeAt doc f.path = some m ∧ tagN m = "FCDA" := by
  intro f hf
  simp only [findFCDAs] at hf
  split at hf
  · simp at hf
  · split at hf
    · simp at hf
    · next ip _ =>
      rcases List.mem_map.mp hf with ⟨fp, hfp, hmk⟩
      have hfp1 : fp ∈ (elemsByTagAt doc ip "FCDA").filter
          (fun q => !(closestTag doc q "Private").isSome) := List.mem_of_mem_filter hfp
      have hfp2 : fp ∈ elemsByTagAt doc ip "FCDA" := List.mem_of_mem_filter hfp1
      obtain ⟨m, hm, htag⟩ := elemsByTagAt_sound doc ip "FCDA" fp hfp2
      exact ⟨by rw [← hmk], m, by rw [← hmk]; exact hm, htag⟩

theorem cbTagsFor_sub (e : ENode) : ∀ t ∈ cbTagsFor e, t ∈ cbTagsAll := by
  intro t ht
  simp only [cbTagsFor] at ht
  split at ht <;> simp_all [cbTagsAll]

theorem cbPred_ok (doc : XNode) (e : ENode) (dsName : String) (hwf : wfDoc doc = true)
    (cbp : List Nat) (mcb : XNode) (hv : subtreeAt doc cbp = some mcb)
    (htag : cbTagsAll.contains (tagN mcb) = true) :
    ∃ b, cbPred doc e dsName cbp = .ok b := by
  have hent := wf_at doc hwf cbp mcb hv
  simp only [wfEntry, Bool.and_eq_true] at hent
  have hcb := hent.2
  rw [if_pos htag] at hcb
  simp only [cbPred]
  cases hsrc : attrOfE e "srcCBName" with
  | none => exact ⟨_, rfl⟩
  | some s =>
    dsimp only
    by_cases hs : s.isEmpty
    · rw [if_pos hs]; exact ⟨_, rfl⟩
    · rw [if_neg hs]
      cases hln : closestTag doc cbp "LN0" with
      | none => rw [hln] at hcb; simp at hcb
      | some lnp =>
        rw [hln] at hcb
        have hld2 : (closestTag doc lnp "LDevice").isSome = true := by simpa using hcb
        dsimp only
        cases hld : closestTag doc lnp "LDevice" with
        | none => rw [hld] at hld2; simp at hld2
        | some ldp => exact ⟨_, rfl⟩

theorem fcbForFcda_ok (doc : XNode) (e : ENode) (hwf : wfDoc doc = true)
    (fp : List Nat) (mf : XNode) (hv : subtreeAt doc fp = some mf)
    (htag : tagN mf = "FCDA") :
    ∃ l, fcbForFcda doc e fp = .ok l := by
  have hent := wf_at doc hwf fp mf hv
  simp only [wfEntry, Bool.and_eq_true] at hent
  have hlen : 2 ≤ fp.length := by
    have := hent.1.2
    rw [if_pos (by simp [htag])] at this
    simpa using this
  cases fp with
  | nil => simp at hlen
  | cons j rest =>
    simp only [fcbForFcda]
    have hds : ((j :: rest).dropLast).isEmpty = false := by
      have : ((j :: rest).dropLast).length = rest.length := by simp
      cases hdl : (j :: rest).dropLast with
      | nil =>
        rw [hdl] at this
        simp only [List.length_nil] at this
        simp only [List.length_cons] at hlen
        omega
      | cons y ys => rfl
    rw [if_neg (by simp [hds])]
    apply filterE_ok
    intro cbp hcbp
    rcases List.mem_flatten.mp hcbp with ⟨sub, hsub, hcbp2⟩
    rcases List.mem_map.mp hsub with ⟨t, ht, hteq⟩
    rw [← hteq] at hcbp2
    obtain ⟨mcb, hmv, hmt⟩ := elemsByTagAt_sound doc ((j :: rest).dropLast).dropLast t cbp hcbp2
    apply cbPred_ok doc e _ hwf cbp mcb hmv
    rw [hmt]
    have := cbTagsFor_sub e t ht
    simpa [List.contains, List.elem_iff] using this

theorem findControlBlock_ok (doc : XNode) (e : ENode) (hwf : wfDoc doc = true) :
    ∃ r, findControlBlock doc e = .ok r := by
  simp only [findControlBlock, bind, Except.bind]
  have : ∃ lists, mapE (fun f => fcbForFcda doc e f.path) (findFCDAs doc e) = .ok lists := by
    apply mapE_ok
    intro f hf
    obtain ⟨_, m, hv, htag⟩ := findFCDAs_sound doc e f hf
    exact fcbForFcda_ok doc e hwf f.path m hv htag
  obtain ⟨lists, hl⟩ := this
  rw [hl]
  exact ⟨_, rfl⟩

/-!
Totality of the matching loop and of the two companion paths
-/

theorem matchLoop_ok (fcdas : List ENode) :
    ∀ (xs : List ENode) (idx : Nat),
      (∀ x ∈ xs, (closestTag x.root x.path "LN").isSome = true) →
      xs.length + idx ≤ fcdas.length →
      ∃ l, matchLoop fcdas xs idx = .ok l := by
  intro xs
  induction xs with
  | nil => intro idx _ _; exact ⟨[], rfl⟩
  | cons x rest ih =>
    intro idx hln hlen
    simp only [matchLoop]
    cases hcl : closestTag x.root x.path "LN" with
    | none =>
      have := hln x (by simp)
      rw [hcl] at this
      simp at this
    | some lnp =>
      dsimp only
      obtain ⟨r, hr⟩ := ih (idx + 1) (fun y hy => hln y (by simp [hy]))
        (by simp only [List.length_cons] at hlen; omega)
      by_cases hg : ((attrOfE x "intAddr").isSome && (attrAt x.root lnp "lnClass").isSome) = true
      · rw [if_pos hg]
        have hidx : idx < fcdas.length := by
          simp only [List.length_cons] at hlen; omega
        obtain ⟨f, hf⟩ := get_some_of_lt fcdas idx hidx
        rw [hf]
        simp only [bind, Except.bind, hr]
        exact ⟨_, rfl⟩
      · rw [if_neg hg]
        simp only [bind, Except.bind, hr]
        exact ⟨r, rfl⟩

theorem matchLoop_sink_mem (fcdas : List ENode) :
    ∀ (xs : List ENode) (idx : Nat) (l : List (ENode × ENode)),
      matchLoop fcdas xs idx = .ok l → ∀ pr ∈ l, pr.2 ∈ xs := by
  intro xs
  induction xs with
  | nil =>
    intro idx l hl pr hpr
    simp only [matchLoop] at hl
    cases hl
    simp at hpr
  | cons x rest ih =>
    intro idx l hl pr hpr
    simp only [matchLoop] at hl
    split at hl
    · exact absurd hl (by simp)
    · next lnp _ =>
      split at hl
      · split at hl
        · exact absurd hl (by simp)
        · next f hf =>
          simp only [bind, Except.bind] at hl
          cases hrec : matchLoop fcdas rest (idx + 1) with
          | error er => rw [hrec] at hl; exact absurd hl (by simp)
          | ok r =>
            rw [hrec] at hl
            simp only [Except.ok.injEq] at hl
            rw [← hl] at hpr
            split at hpr
            · rcases List.mem_cons.mp hpr with hpr1 | hpr1
              · rw [hpr1]; simp
              · have := ih (idx + 1) r hrec pr hpr1
                simp [this]
            · have := ih (idx + 1) r hrec pr hpr
              simp [this]
      · simp only [bind, Except.bind] at hl
        cases hrec : matchLoop fcdas rest (idx + 1) with
        | error er => rw [hrec] at hl; exact absurd hl (by simp)
        | ok r =>
          rw [hrec] at hl
          simp only [Except.ok.injEq] at hl
          rw [← hl] at hpr
          have := ih (idx + 1) r hrec pr hpr
          simp [this]

theorem mvqp_ok (doc : XNode) (st : PluginState) (e : ENode) (pre : Option ENode)
    (f : ENode) (hwf : wfDoc doc = true) :
    ∃ l, modifyValueAndQualityPair doc st e pre f = .ok l := by
  simp only [modifyValueAndQualityPair, bind, Except.bind]
  obtain ⟨cb, hcb⟩ := findControlBlock_ok doc e hwf
  rw [hcb]
  dsimp only
  cases nextSibPath f.root f.path with
  | none => exact ⟨[], rfl⟩
  | some nf =>
    cases nextSibPath e.root e.path with
    | none => exact ⟨[], rfl⟩
    | some ne_ =>
      dsimp only
      by_cases hm : (extRefMatchSiemens e ⟨e.root, ne_⟩ &&
          isfcdaPairWithQuality f ⟨f.root, nf⟩) = true
      · rw [if_pos hm]; exact ⟨_, rfl⟩
      · rw [if_neg hm]; exact ⟨[], rfl⟩

theorem msve_ok (doc : XNode) (st : PluginState) (p : List Nat) (n : XNode)
    (pre : Option ENode) (f : ENode) (hwf : wfDoc doc = true)
    (hv : subtreeAt doc p = some n) (htag : tagN n = "ExtRef") :
    ∃ l, modifySampledValueExtRefs doc st ⟨doc, p⟩ pre f = .ok l := by
  simp only [modifySampledValueExtRefs]
  by_cases hn : svOrderedFCDAs f > 2
  · rw [if_pos hn]
    obtain ⟨cb, hcb⟩ := findControlBlock_ok doc ⟨doc, p⟩ hwf
    rw [hcb]
    simp only [bind, Except.bind]
    have hent := wf_at doc hwf p n hv
    simp only [wfEntry, Bool.and_eq_true] at hent
    have hext := hent.1.1
    rw [if_pos (by simp [htag])] at hext
    simp only [Bool.and_eq_true] at hext
    have hld : (closestTag doc p "LDevice").isSome = true := hext.2
    cases hldc : closestTag doc p "LDevice" with
    | none => rw [hldc] at hld; simp at hld
    | some ldp =>
      dsimp only
      simp only [matchFCDAsToExtRefs]
      have hbound : svOrderedFCDAs f ≤ (svList f).length := svCount_le_len f (svList f) 0
      have hlen7 : (svList f).length = 1 + (getNextSiblings f.root f.path 7).length := by
        simp [svList]
        omega
      have h8 : svOrderedFCDAs f ≤ 8 := by
        have := gns_len_le f.root 7 f.path
        omega
      have hglen : (getNextSiblings f.root f.path (svOrderedFCDAs f - 1)).length =
          svOrderedFCDAs f - 1 := by
        rw [gns_take f.root (svOrderedFCDAs f - 1) 7 f.path (by omega)]
        rw [List.length_take]
        omega
      have hok := matchLoop_ok
        (f :: (getNextSiblings f.root f.path (svOrderedFCDAs f - 1)).map
          (fun q => (⟨f.root, q⟩ : ENode)))
        ((((elemsByTagAt doc ldp "ExtRef").filter
            (fun q => cdpCode p q != 2)).take (svOrderedFCDAs f)).map
          (fun q => (⟨doc, q⟩ : ENode)))
        0 ?_ ?_
      · obtain ⟨l, hl⟩ := hok
        rw [hl]
        exact ⟨_, rfl⟩
      · intro x hx
        rcases List.mem_map.mp hx with ⟨q, hq, hxq⟩
        have hq1 : q ∈ (elemsByTagAt doc ldp "ExtRef").filter
            (fun q => cdpCode p q != 2) := List.mem_of_mem_take hq
        have hq2 : q ∈ elemsByTagAt doc ldp "ExtRef" := List.mem_of_mem_filter hq1
        obtain ⟨mq, hmv, hmt⟩ := elemsByTagAt_sound doc ldp "ExtRef" q hq2
        have hentq := wf_at doc hwf q mq hmv
        simp only [wfEntry, Bool.and_eq_true] at hentq
        have hextq := hentq.1.1
        rw [if_pos (by simp [hmt])] at hextq
        simp only [Bool.and_eq_true] at hextq
        rw [← hxq]
        exact hextq.1
      · simp only [List.length_map, List.length_cons, Nat.add_zero]
        have : (((elemsByTagAt doc ldp "ExtRef").filter
            (fun q => cdpCode p q != 2)).take (svOrderedFCDAs f)).length ≤
            svOrderedFCDAs f := by
          rw [List.length_take]
          omega
        omega
  · rw [if_neg hn]
    exact ⟨[], rfl⟩

/-!
Claim C3
-/

/-- Counterexample to claim C3: an unsubscribed ExtRef together with a
null pre-event snapshot slips past the early return (null is falsy in
its conjunction) and reaches `findFCDAs(preEventExtRef!)`, which
dereferences `null` — `processSiemensExtRef` raises instead of running
to completion. -/
theorem processSiemensExtRef_null_snapshot_throws :
    (processSiemensExtRef bareExtRef.root st0 bareExtRef none).2 =
      some (Err.typeError "findFCDAs of null") := rfl

/-- Claim C3 (amended): `processSiemensExtRef` runs to completion
without raising provided that (a) a null snapshot only accompanies a
subscribed ExtRef and (b) the document is structurally well-formed
(`wfDoc`): every ExtRef lies inside an `LN` and an `LDevice`, every FCDA
has a grandparent, and every control-block element lies inside an `LN0`
that lies inside an `LDevice`. -/
theorem processSiemensExtRef_total_on_wellformed (doc : XNode) (st : PluginState)
    (p : List Nat) (n : XNode) (pre : Option ENode) (hwf : wfDoc doc = true)
    (hv : subtreeAt doc p = some n) (htag : tagN n = "ExtRef")
    (hpre : isSubscribedE ⟨doc, p⟩ = false → pre ≠ none) :
    (processSiemensExtRef doc st ⟨doc, p⟩ pre).2 = none := by
  simp only [processSiemensExtRef]
  split
  · rfl
  · by_cases hsub : isSubscribedE (⟨doc, p⟩ : ENode) = true
    · rw [if_pos hsub]
      dsimp only
      cases hh : (findFCDAs doc ⟨doc, p⟩).head? with
      | none => rfl
      | some f =>
        dsimp only
        obtain ⟨l1, h1⟩ := msve_ok doc st p n pre f hwf hv htag
        rw [h1]
        obtain ⟨l2, h2⟩ := mvqp_ok doc st ⟨doc, p⟩ pre f hwf
        rw [h2]
    · have hfalse : isSubscribedE (⟨doc, p⟩ : ENode) = false := by
        simpa using hsub
      cases hp : pre with
      | none => exact absurd hp (hpre hfalse)
      | some p' =>
        rw [if_neg hsub]
        dsimp only
        cases hh : (findFCDAs doc p').head? with
        | none => rfl
        | some f =>
          dsimp only
          obtain ⟨l1, h1⟩ := msve_ok doc st p n (some p') f hwf hv htag
          rw [h1]
          obtain ⟨l2, h2⟩ := mvqp_ok doc st ⟨doc, p⟩ (some p') f hwf
          rw [h2]

/-- Witness for the amended C3 on a minimal well-formed document. -/
theorem processSiemensExtRef_total_witness :
    (processSiemensExtRef docWF st0 ⟨docWF, [0, 0, 0]⟩ (some preSub)).2 = none :=
  processSiemensExtRef_total_on_wellformed docWF st0 [0, 0, 0] (.mk "ExtRef" [] [])
    (some preSub) (by decide) rfl rfl (fun _ => by simp)

/-!
Claim C9
-/

theorem svEmit_sink (st : PluginState) (e : ENode) (was : Bool) (cb : Option (List Nat))
    (pr : ENode × ENode) : ∀ it ∈ svEmit st e was cb pr, it.sink = pr.2.path := by
  intro it hit
  simp only [svEmit, List.mem_append] at hit
  rcases hit with hit | hit
  · split at hit
    · have : it = Intent.subscribe pr.2.path pr.1.path (cb.getD []) := by simpa using hit
      rw [this]; rfl
    · simp at hit
  · split at hit
    · have : it = Intent.unsubscribe pr.2.path (some st.ignoreSupervision) := by
        simpa using hit
      rw [this]; rfl
    · simp at hit

/-- Claim C9 (amended): a (descriptor, reference) pair dispatched by the
sampled-value path never carries a reference that is DOM-preceding the
triggering ExtRef — its `compareDocumentPosition` code is never the bare
`PRECEDING` (2); a reference earlier in document order can only be
paired when it is an ancestor (container) of the trigger, which the
`!== DOCUMENT_POSITION_PRECEDING` filter admits. -/
theorem sv_path_sink_not_dom_preceding (doc : XNode) (st : PluginState) (e : ENode)
    (pre : Option ENode) (f : ENode) (l : List Intent)
    (h : modifySampledValueExtRefs doc st e pre f = .ok l) :
    ∀ it ∈ l, cdpCode e.path it.sink ≠ 2 := by
  intro it hit
  simp only [modifySampledValueExtRefs] at h
  split at h
  · cases hcb : findControlBlock doc e with
    | error er => rw [hcb] at h; simp [bind, Except.bind] at h
    | ok cb =>
      simp only [bind, Except.bind, hcb] at h
      cases hldc : closestTag e.root e.path "LDevice" with
      | none => rw [hldc] at h; simp at h
      | some ldp =>
        rw [hldc] at h
        dsimp only at h
        simp only [matchFCDAsToExtRefs] at h
        cases hm : matchLoop
            (f :: (getNextSiblings f.root f.path (svOrderedFCDAs f - 1)).map
              (fun q => (⟨f.root, q⟩ : ENode)))
            ((((elemsByTagAt e.root ldp "ExtRef").filter
                (fun q => cdpCode e.path q != 2)).take (svOrderedFCDAs f)).map
              (fun q => (⟨e.root, q⟩ : ENode))) 0 with
        | error er => rw [hm] at h; simp at h
        | ok pairs =>
          rw [hm] at h
          simp only [Except.ok.injEq] at h
          rw [← h] at hit
          rcases List.mem_flatten.mp hit with ⟨sub, hsub, hit2⟩
          rcases List.mem_map.mp hsub with ⟨pr, hpr, hpreq⟩
          rw [← hpreq] at hit2
          have hsink : it.sink = pr.2.path := svEmit_sink st e (wasSub pre) cb pr it hit2
          have hmem : pr.2 ∈ (((elemsByTagAt e.root ldp "ExtRef").filter
              (fun q => cdpCode e.path q != 2)).take (svOrderedFCDAs f)).map
              (fun q => (⟨e.root, q⟩ : ENode)) :=
            matchLoop_sink_mem _ _ 0 pairs hm pr hpr
          rcases List.mem_map.mp hmem with ⟨q, hq, hqe⟩
          have hq1 : q ∈ (elemsByTagAt e.root ldp "ExtRef").filter
              (fun q => cdpCode e.path q != 2) := List.mem_of_mem_take hq
          have hq2 : (cdpCode e.path q != 2) = true := (List.mem_filter.mp hq1).2
          have hpath : pr.2.path = q := by rw [← hqe]
          rw [hsink, hpath]
          simpa using hq2
  · have : l = [] := by
      have := h
      simp only [Except.ok.injEq] at this
      exact this.symm
    rw [this] at hit
    simp at hit

/-- Counterexample to claim C9: in `docC9` the trigger is an ExtRef
nested inside another ExtRef; on a Subscribed-to-Unsubscribed
transition the sampled-value path pairs and unsubscribes the outer
ExtRef at path `[0,0,0]`, which lies before the trigger `[0,0,0,0]` in
document (pre-)order. -/
theorem sv_path_pairs_ancestor_before_trigger :
    modifySampledValueExtRefs docC9 st0 ⟨docC9, [0, 0, 0, 0]⟩ (some preSub) ⟨docC9, [1, 0]⟩ =
      .ok [Intent.unsubscribe [0, 0, 0] (some false)] ∧
    pathLtB [0, 0, 0] [0, 0, 0, 0] = true := by
  exact ⟨by rfl, by rfl⟩

/-- Witness for the amended C9 at the `docC9` dispatch. -/
theorem sv_path_sink_not_dom_preceding_witness :
    cdpCode [0, 0, 0, 0] (Intent.unsubscribe [0, 0, 0] (some false)).sink ≠ 2 :=
  sv_path_sink_not_dom_preceding docC9 st0 ⟨docC9, [0, 0, 0, 0]⟩ (some preSub)
    ⟨docC9, [1, 0]⟩ [Intent.unsubscribe [0, 0, 0] (some false)] (by rfl)
    (Intent.unsubscribe [0, 0, 0] (some false)) (by simp)
